import Mathlib

/-!
Shallow embedding of the AwareComponent repository.

The repository contains three variants of the same small web-component base
class plus a template helper.  In this development they are distinguished by
the suffixes 000, 001 and 002, matching the order of the unnamed source files:

* variant 000: camel-cased fallback assignment in attributeChangedCallback,
  appending decorate, a companion data-ref-&lt;attr&gt; sub-pass in
  updateReferences, and a raw-interpolation html tag that rewrites
  attribute markers and content markers with two regexes;
* variant 001 (taken from the older class in the README file): bare
  assignment, decorate that replaces the adopted sheet list, and a
  connectedCallback that marks connected and fires the connected hook
  before rendering;
* variant 002: the escaping html tag (dynamic values pass through
  escapeHTML before concatenation), setter lookup like variant 000 but a
  fallback assignment under the raw attribute name.

Strings manipulated by the template compiler are modelled as List Char.
The regex-driven rewrites are modelled by explicit left-to-right scanners;
scanners whose recursion is not structural are driven by a fuel argument
initialised to the length of the input, which one step of the scanner
always decreases while consuming at least one character, so the fuel never
runs out on the real input.  The DOM is modelled as a flat list of
elements in document order: updateReferences only ever reads and writes
the individual elements returned by the query for [data-ref], so the tree
shape is irrelevant to it.  Client-supplied code (property setters, the
render method, the lifecycle hooks) is modelled as a recorded invocation,
which is exactly the setter-spy discipline the design document asks tests
to use.
-/

/-- Model of the JS regex character class [a-zA-Z0-9_] used by the content
marker regex of the raw-interpolation template compiler. -/
def wordChar (c : Char) : Bool := c.isAlpha || c.isDigit || c == '_'

/-- Model of the JS regex character class [a-zA-Z0-9_-] for attribute names in
the attribute marker regex of the raw-interpolation template compiler. -/
def attrNameChar (c : Char) : Bool := wordChar c || c == '-'

/-- Apostrophe character, written by code point. -/
def aposChar : Char := Char.ofNat 39

/-- Whitespace characters relevant to String.prototype.trim (the common
subset; the inputs handled here contain no exotic whitespace). -/
def isWs (c : Char) : Bool := c == ' ' || c == '\t' || c == '\n' || c == '\r'

/-- Model of one String.prototype.replace call with a single-character global
regex: every occurrence of the character is replaced by the given string. -/
def replaceChar (c : Char) (r : List Char) : List Char → List Char
  | [] => []
  | x :: xs => if x = c then r ++ replaceChar c r xs else x :: replaceChar c r xs

/-- Model of escapeHTML from the source: five chained global replaces,
applied in source order (amp, lt, gt, quot, apos - innermost first). -/
def escapeHTML (s : List Char) : List Char :=
  replaceChar aposChar "&#039;".data
    (replaceChar '"' "&quot;".data
      (replaceChar '>' "&gt;".data
        (replaceChar '<' "&lt;".data
          (replaceChar '&' "&amp;".data s))))

/-- Consume one expected literal character at the head of the input, the
building block for the regex scanners. -/
def expectChar (c : Char) : List Char → Option (List Char)
  | d :: rest => if d = c then some rest else none
  | [] => none

/-- Try to match the content marker regex of variant 000 at the head of the
input: an opening paren and brace, a nonempty greedy run of word characters,
then the closing brace and paren.  Returns the captured identifier and the
input after the match. -/
def contentMatch000 (s : List Char) : Option (List Char × List Char) :=
  match expectChar '(' s with
  | none => none
  | some s1 =>
    match expectChar '{' s1 with
    | none => none
    | some rest =>
      if (rest.takeWhile wordChar).isEmpty then none
      else
        match expectChar '}' (rest.drop (rest.takeWhile wordChar).length) with
        | none => none
        | some t1 =>
          match expectChar ')' t1 with
          | none => none
          | some rest2 => some (rest.takeWhile wordChar, rest2)

/-- Try to match the content marker regex of variant 002 at the head of the
input.  The only difference from variant 000 is the identifier class: a
nonempty greedy run of characters other than the closing brace. -/
def contentMatch002 (s : List Char) : Option (List Char × List Char) :=
  match expectChar '(' s with
  | none => none
  | some s1 =>
    match expectChar '{' s1 with
    | none => none
    | some rest =>
      if (rest.takeWhile (fun c => c != '}')).isEmpty then none
      else
        match expectChar '}' (rest.drop (rest.takeWhile (fun c => c != '}')).length) with
        | none => none
        | some t1 =>
          match expectChar ')' t1 with
          | none => none
          | some rest2 => some (rest.takeWhile (fun c => c != '}'), rest2)

/-- Static prefix of the marker span produced by both content rewrites. -/
def span000open : List Char := "<span data-ref=\"".data

/-- Static suffix of the marker span produced by the variant 000 content
rewrite: the span it emits is empty. -/
def span000close : List Char := "\"></span>".data

/-- Static middle piece of the marker span produced by the variant 002
content rewrite, between the data-ref value and the visible text. -/
def span002mid : List Char := "\">".data

/-- Static suffix of the marker span produced by the variant 002 content
rewrite. -/
def span002close : List Char := "</span>".data

/-- Left-to-right global-replace scan for the variant 000 content regex,
replacing each match by an empty span carrying data-ref and advancing one
character when there is no match at the current position. -/
def contentLoop000 : Nat → List Char → List Char
  | 0, s => s
  | _ + 1, [] => []
  | fuel + 1, c :: rest =>
    match contentMatch000 (c :: rest) with
    | some (run, rest2) => span000open ++ run ++ span000close ++ contentLoop000 fuel rest2
    | none => c :: contentLoop000 fuel rest

/-- Content rewrite of variant 000, with the fuel initialised to the input
length (each scan step consumes at least one character). -/
def contentRewrite000 (s : List Char) : List Char := contentLoop000 s.length s

/-- Left-to-right global-replace scan for the variant 002 content regex; the
replacement escapes the captured identifier and uses it both as the data-ref
value and as the visible text of the span. -/
def contentLoop002 : Nat → List Char → List Char
  | 0, s => s
  | _ + 1, [] => []
  | fuel + 1, c :: rest =>
    match contentMatch002 (c :: rest) with
    | some (run, rest2) =>
      span000open ++ escapeHTML run ++ span002mid ++ escapeHTML run ++ span002close
        ++ contentLoop002 fuel rest2
    | none => c :: contentLoop002 fuel rest

/-- Content rewrite of variant 002, with the fuel initialised to the input
length. -/
def contentRewrite002 (s : List Char) : List Char := contentLoop002 s.length s

/-- Try to match the attribute marker regex of variant 000 at the head of the
input: a nonempty greedy run of attribute-name characters, a literal equals
sign and quote, the paren-brace opener, a nonempty greedy run of word
characters, and the closing sequence.  Returns the full matched text, the
attribute name, the identifier, and the input after the match. -/
def attrMatchHere (s : List Char) :
    Option (List Char × List Char × List Char × List Char) :=
  if (s.takeWhile attrNameChar).isEmpty then none
  else
    match expectChar '=' (s.drop (s.takeWhile attrNameChar).length) with
    | none => none
    | some s1 =>
      match expectChar '"' s1 with
      | none => none
      | some s2 =>
        match expectChar '(' s2 with
        | none => none
        | some s3 =>
          match expectChar '{' s3 with
          | none => none
          | some rest1 =>
            if (rest1.takeWhile wordChar).isEmpty then none
            else
              match expectChar '}' (rest1.drop (rest1.takeWhile wordChar).length) with
              | none => none
              | some t1 =>
                match expectChar ')' t1 with
                | none => none
                | some t2 =>
                  match expectChar '"' t2 with
                  | none => none
                  | some rest2 =>
                    some (s.takeWhile attrNameChar
                        ++ '=' :: '"' :: '(' :: '{'
                          :: (rest1.takeWhile wordChar ++ ['}', ')', '"']),
                      s.takeWhile attrNameChar, rest1.takeWhile wordChar, rest2)

/-- Left-to-right scan collecting all non-overlapping matches of the
attribute marker regex, as matchAll does. -/
def attrMatchesLoop : Nat → List Char → List (List Char × List Char × List Char)
  | 0, _ => []
  | _ + 1, [] => []
  | fuel + 1, c :: rest =>
    match attrMatchHere (c :: rest) with
    | some (full, a, v, rest2) => (full, a, v) :: attrMatchesLoop fuel rest2
    | none => attrMatchesLoop fuel rest

/-- All matches of the attribute marker regex, with the fuel initialised to
the input length. -/
def attrMatches (s : List Char) : List (List Char × List Char × List Char) :=
  attrMatchesLoop s.length s

/-- Replacement text variant 000 substitutes for a matched attribute marker:
the attribute emptied, a companion data-ref-name attribute naming the bound
identifier, and a bare data-ref marker. -/
def attrReplacement (attr ident : List Char) : List Char :=
  attr ++ "=\"\" data-ref-".data ++ attr ++ "=\"".data ++ ident ++ "\" data-ref".data

/-- Full matched text of the attribute marker regex for attribute name k and
identifier x, as reconstructed by attrMatchHere. -/
def attrFull (k x : List Char) : List Char :=
  k ++ '=' :: '"' :: '(' :: '{' :: (x ++ ['}', ')', '"'])

/-- Model of String.prototype.replace with a plain-string pattern: only the
first occurrence is replaced. -/
def replaceFirst (pat rep : List Char) : List Char → List Char
  | [] => []
  | c :: rest =>
    if pat.isPrefixOf (c :: rest) then rep ++ (c :: rest).drop pat.length
    else c :: replaceFirst pat rep rest

/-- Attribute rewrite of variant 000: collect every match, then for each one
replace its first occurrence in the current string, in match order. -/
def attrRewrite (s : List Char) : List Char :=
  (attrMatches s).foldl
    (fun acc m => replaceFirst m.1 (attrReplacement m.2.1 m.2.2) acc) s

/-- Interpolation step of the variant 000 html tag: concatenate static
chunks and values in order, values inserted verbatim. -/
def buildStr000 : List (List Char) → List (List Char) → List Char
  | [], _ => []
  | t :: ts, [] => t ++ buildStr000 ts []
  | t :: ts, v :: vs => t ++ v ++ buildStr000 ts vs

/-- Interpolation step of the variant 002 html tag: the first static chunk,
then each value HTML-escaped followed by the next static chunk.  Modelled
for the template-literal invariant that there is one more static chunk than
there are values. -/
def buildStr002 (templates values : List (List Char)) : List Char :=
  match templates with
  | [] => []
  | t0 :: rest =>
    (values.zip rest).foldl (fun acc p => acc ++ escapeHTML p.1 ++ p.2) t0

/-- Model of String.prototype.trim on the character list. -/
def trimWs (s : List Char) : List Char :=
  ((s.dropWhile isWs).reverse.dropWhile isWs).reverse

/-- Markup string assigned to template.innerHTML by the variant 000 html
tag: raw interpolation, then the attribute rewrite, then the content
rewrite, then trim.  The native parse and fragment clone that follow are
the external DOM collaborator and are not modelled; the claims about the
produced fragment are stated on this markup string. -/
def htmlStr000 (templates values : List (List Char)) : List Char :=
  trimWs (contentRewrite000 (attrRewrite (buildStr000 templates values)))

/-- Markup string assigned to template.innerHTML by the variant 002 html
tag: escaped interpolation, then the content rewrite, then trim. -/
def htmlStr002 (templates values : List (List Char)) : List Char :=
  trimWs (contentRewrite002 (buildStr002 templates values))

/-! ## Component model -/

/-- DOM element, flattened: the reference pass reads and writes only the tag
name, the attribute list (in insertion order) and the text content of the
elements matched by the [data-ref] query. -/
structure Elem where
  localName : String
  attrs : List (String × String)
  textContent : String
deriving DecidableEq

/-- Model of Element.getAttribute. -/
def getAttrElem (e : Elem) (k : String) : Option String :=
  (e.attrs.find? (fun a => a.1 == k)).map (fun a => a.2)

/-- Attribute-list update for Element.setAttribute: an existing attribute is
updated in place, a new one is appended. -/
def setAttrList (attrs : List (String × String)) (k v : String) : List (String × String) :=
  if attrs.any (fun a => a.1 == k) then
    attrs.map (fun a => if a.1 == k then (k, v) else a)
  else attrs ++ [(k, v)]

/-- Model of Element.setAttribute. -/
def setAttrElem (e : Elem) (k v : String) : Elem :=
  { e with attrs := setAttrList e.attrs k v }

/-- Instance properties: an association list from property name to value.
An absent key models a JS undefined read; a present key bound to none
models an explicit null.  Property values that matter to the claims are
strings. -/
def lookupProp (props : List (String × Option String)) (k : String) :
    Option (Option String) :=
  (props.find? (fun a => a.1 == k)).map (fun a => a.2)

/-- Property write on the association list. -/
def setProp (props : List (String × Option String)) (k : String) (v : Option String) :
    List (String × Option String) :=
  if props.any (fun a => a.1 == k) then
    props.map (fun a => if a.1 == k then (k, v) else a)
  else props ++ [(k, v)]

/-- Stringification JS applies when a value reaches setAttribute or
textContent. -/
def jsString : Option String → String
  | none => "null"
  | some s => s

/-- JS truthiness of a string: the empty string is falsy. -/
def strTruthy (s : String) : Bool := s != ""

/-- Companion-attribute sub-pass of variant 000 updateReferences, run for a
marker whose data-ref value is empty: for every data-ref-&lt;attr&gt; companion,
resolve the property it names and, unless the read is undefined, mirror the
value onto the attribute named by the suffix.  The companion list is the
snapshot taken before any mutation, as the source spreads element.attributes
first. -/
def companionPass (props : List (String × Option String)) (element : Elem) : Elem :=
  (element.attrs.filter (fun a => "data-ref-".data.isPrefixOf a.1.data)).foldl
    (fun el a =>
      match lookupProp props a.2 with
      | none => el
      | some value =>
        setAttrElem el (String.mk (replaceFirst "data-ref-".data [] a.1.data)) (jsString value))
    element

/-- Per-element body of variant 000 updateReferences.  An empty data-ref
value selects the companion sub-pass, which ignores the changed-attribute
filter.  Otherwise the element is skipped when the filter is active (a
truthy changed attribute) and does not equal the bound property name, or
when the property reads as null or undefined; an img element mirrors the
value onto src, any other element receives it as text content, and both
record it in data-value. -/
def updateElem (props : List (String × Option String)) (changedAttribute : Option String)
    (element : Elem) : Elem :=
  match getAttrElem element "data-ref" with
  | none => element
  | some property =>
    if property = "" then companionPass props element
    else if (property == "")
        || (match changedAttribute with
            | some ck => strTruthy ck && property != ck
            | none => false) then element
    else
      match lookupProp props property with
      | none => element
      | some none => element
      | some (some value) =>
        if element.localName = "img" then
          setAttrElem (setAttrElem element "data-value" value) "src" value
        else
          { setAttrElem element "data-value" value with textContent := value }

/-- Variant 000 updateReferences over the root: every data-ref element is
processed in document order; elements the query does not select are
untouched, which the element body encodes by leaving them unchanged. -/
def updateReferences (props : List (String × Option String)) (changedAttribute : Option String)
    (root : List Elem) : List Elem :=
  root.map (updateElem props changedAttribute)

/-- Per-element body of the variant 001/002 updateReferences, which has no
companion sub-pass: an empty data-ref value simply skips. -/
def updateElem002 (props : List (String × Option String)) (changedAttribute : Option String)
    (element : Elem) : Elem :=
  match getAttrElem element "data-ref" with
  | none => element
  | some property =>
    if (property == "")
        || (match changedAttribute with
            | some ck => strTruthy ck && property != ck
            | none => false) then element
    else
      match lookupProp props property with
      | none => element
      | some none => element
      | some (some value) =>
        if element.localName = "img" then
          setAttrElem (setAttrElem element "data-value" value) "src" value
        else
          { setAttrElem element "data-value" value with textContent := value }

/-- Variant 001/002 updateReferences over the root. -/
def updateReferences002 (props : List (String × Option String)) (changedAttribute : Option String)
    (root : List Elem) : List Elem :=
  root.map (updateElem002 props changedAttribute)

/-- Model of the camel-casing replace of variant 000: every hyphen followed
by an ASCII lowercase letter is replaced by that letter uppercased. -/
def camelCase : List Char → List Char
  | [] => []
  | c :: rest =>
    if c = '-' then
      match rest with
      | d :: rest2 => if d.isLower then d.toUpper :: camelCase rest2 else '-' :: camelCase (d :: rest2)
      | [] => ['-']
    else c :: camelCase rest

/-- Camel-casing on String. -/
def camelCaseStr (s : String) : String := String.mk (camelCase s.data)

/-- Component state: properties, the own setter names of each prototype in
the chain (immediate prototype first), whether the subtype defines the
optional attribute-change hook, the two lifecycle flags, and the root
subtree. -/
structure Component where
  props : List (String × Option String)
  protoSetters : List (List String)
  hasAttrHook : Bool
  connected : Bool
  initialized : Bool
  root : List Elem
deriving DecidableEq

/-- Observable steps of the lifecycle and reflection callbacks.  Setter
bodies, render and the hooks are client code; invoking one is modelled by
recording the invocation. -/
inductive Ev where
  | markInitialized : Ev
  | initHook : Ev
  | renderCall : Ev
  | markConnected : Ev
  | connectedHook : Ev
  | refPass : Option String → Ev
  | setterCall : String → Option String → Ev
  | assign : String → Option String → Ev
  | attrHook : String → Option String → Option String → Ev
deriving DecidableEq

/-- Lookup the code performs for the setter branch: an own property setter
on the immediate prototype only (getOwnPropertyDescriptor applied to
getPrototypeOf). -/
def immediateProtoSetter (chain : List (List String)) (k : String) : Bool :=
  match chain with
  | [] => false
  | l :: _ => l.contains k

/-- Whether any prototype in the chain has a setter of the given name.
This is the notion the design document uses (the instance or its prototype
chain exposing a write accessor); a plain property assignment in JS also
triggers such a setter, which assignProp reflects. -/
def chainHasSetter (chain : List (List String)) (k : String) : Bool :=
  chain.any (fun l => l.contains k)

/-- Model of a JS property assignment on the instance: if a setter of that
name exists anywhere on the prototype chain, the assignment invokes it
(recorded); otherwise it writes an own data property. -/
def assignProp (c : Component) (k : String) (v : Option String) : Component × List Ev :=
  if chainHasSetter c.protoSetters k then (c, [Ev.setterCall k v])
  else ({ c with props := setProp c.props k v }, [Ev.assign k v])

/-- Model of variant 000 attributeChangedCallback: no-op on equal values;
otherwise invoke an own setter of the immediate prototype when one matches
the attribute name, else assign the value onto the camel-cased property;
then fire the optional change hook; then, when connected, run the reference
pass filtered by the changed attribute name. -/
def attributeChangedCallback000 (c : Component) (name : String)
    (oldValue newValue : Option String) : Component × List Ev :=
  if oldValue = newValue then (c, [])
  else
    let step1 :=
      if immediateProtoSetter c.protoSetters name then (c, [Ev.setterCall name newValue])
      else assignProp c (camelCaseStr name) newValue
    let step2 :=
      if step1.1.hasAttrHook then (step1.1, step1.2 ++ [Ev.attrHook name oldValue newValue])
      else step1
    if step2.1.connected then
      ({ step2.1 with root := updateReferences step2.1.props (some name) step2.1.root },
        step2.2 ++ [Ev.refPass (some name)])
    else step2

/-- Model of variant 002 attributeChangedCallback: like variant 000 except
that the fallback assignment uses the attribute name verbatim (no
camel-casing) and the change-hook lines are commented out in the source. -/
def attributeChangedCallback002 (c : Component) (name : String)
    (oldValue newValue : Option String) : Component × List Ev :=
  if oldValue = newValue then (c, [])
  else
    let step1 :=
      if immediateProtoSetter c.protoSetters name then (c, [Ev.setterCall name newValue])
      else assignProp c name newValue
    if step1.1.connected then
      ({ step1.1 with root := updateReferences002 step1.1.props (some name) step1.1.root },
        step1.2 ++ [Ev.refPass (some name)])
    else step1

/-- Model of variant 000 connectedCallback (variant 002 is the same code):
mark initialized, fire the init hook, render, run the unfiltered reference
pass, mark connected, fire the connected hook - in that order. -/
def connectedCallback000 (c : Component) : Component × List Ev :=
  let s1 : Component × List Ev := ({ c with initialized := true }, [Ev.markInitialized])
  let s2 : Component × List Ev := (s1.1, s1.2 ++ [Ev.initHook])
  let s3 : Component × List Ev := (s2.1, s2.2 ++ [Ev.renderCall])
  let s4 : Component × List Ev :=
    ({ s3.1 with root := updateReferences s3.1.props none s3.1.root }, s3.2 ++ [Ev.refPass none])
  let s5 : Component × List Ev := ({ s4.1 with connected := true }, s4.2 ++ [Ev.markConnected])
  (s5.1, s5.2 ++ [Ev.connectedHook])

/-- Model of variant 001 connectedCallback: mark connected, fire the
connected hook, render, run the unfiltered reference pass - and no
initialized flag or init hook at all. -/
def connectedCallback001 (c : Component) : Component × List Ev :=
  let s1 : Component × List Ev := ({ c with connected := true }, [Ev.markConnected])
  let s2 : Component × List Ev := (s1.1, s1.2 ++ [Ev.connectedHook])
  let s3 : Component × List Ev := (s2.1, s2.2 ++ [Ev.renderCall])
  ({ s3.1 with root := updateReferences002 s3.1.props none s3.1.root }, s3.2 ++ [Ev.refPass none])

/-- Adopted style sheet: replaceSync fills a fresh CSSStyleSheet with the
given css text, so a sheet is identified by that text. -/
structure Sheet where
  cssText : String
deriving DecidableEq

/-- Argument shape of variant 000 decorate: one css string or an array of
css strings. -/
inductive CssArg where
  | one : String → CssArg
  | many : List String → CssArg

/-- The array the source normalises the argument to. -/
def cssArray : CssArg → List String
  | CssArg.one s => [s]
  | CssArg.many l => l

/-- Model of variant 000 decorate: compile each css text to a sheet and
append the new sheets to the currently adopted list. -/
def decorate000 (adopted : List Sheet) (css : CssArg) : List Sheet :=
  adopted ++ (cssArray css).map (fun text => { cssText := text })

/-- Model of variant 001 decorate: the adopted list is replaced by the
single new sheet. -/
def decorate001 (_adopted : List Sheet) (cssText : String) : List Sheet :=
  [{ cssText := cssText }]

/-! ## Helper lemmas about the string scanners -/

theorem mem_of_mem_replaceChar {x c : Char} {r s : List Char}
    (h : x ∈ replaceChar c r s) : x ∈ r ∨ (x ∈ s ∧ x ≠ c) := by
  induction s with
  | nil => simp [replaceChar] at h
  | cons a t ih =>
    by_cases hac : a = c
    · rw [replaceChar, if_pos hac, List.mem_append] at h
      rcases h with h | h
      · exact Or.inl h
      · rcases ih h with h1 | ⟨h2, h3⟩
        · exact Or.inl h1
        · exact Or.inr ⟨List.mem_cons_of_mem _ h2, h3⟩
    · rw [replaceChar, if_neg hac, List.mem_cons] at h
      rcases h with rfl | h
      · exact Or.inr ⟨List.mem_cons_self _ _, hac⟩
      · rcases ih h with h1 | ⟨h2, h3⟩
        · exact Or.inl h1
        · exact Or.inr ⟨List.mem_cons_of_mem _ h2, h3⟩

theorem replaceChar_of_not_mem {c : Char} (r : List Char) {s : List Char}
    (h : c ∉ s) : replaceChar c r s = s := by
  induction s with
  | nil => rfl
  | cons a t ih =>
    have hac : a ≠ c := by
      intro he
      subst he
      exact h (List.mem_cons_self a t)
    rw [replaceChar, if_neg hac]
    rw [ih (fun hm => h (List.mem_cons_of_mem _ hm))]

theorem lt_not_mem_escapeHTML (s : List Char) : '<' ∉ escapeHTML s := by
  intro h
  rcases mem_of_mem_replaceChar h with h | ⟨h, _⟩
  · exact absurd h (by decide)
  rcases mem_of_mem_replaceChar h with h | ⟨h, _⟩
  · exact absurd h (by decide)
  rcases mem_of_mem_replaceChar h with h | ⟨h, _⟩
  · exact absurd h (by decide)
  rcases mem_of_mem_replaceChar h with h | ⟨_, hne⟩
  · exact absurd h (by decide)
  · exact hne rfl

theorem gt_not_mem_escapeHTML (s : List Char) : '>' ∉ escapeHTML s := by
  intro h
  rcases mem_of_mem_replaceChar h with h | ⟨h, _⟩
  · exact absurd h (by decide)
  rcases mem_of_mem_replaceChar h with h | ⟨h, _⟩
  · exact absurd h (by decide)
  rcases mem_of_mem_replaceChar h with h | ⟨_, hne⟩
  · exact absurd h (by decide)
  · exact hne rfl

theorem quot_not_mem_escapeHTML (s : List Char) : '"' ∉ escapeHTML s := by
  intro h
  rcases mem_of_mem_replaceChar h with h | ⟨h, _⟩
  · exact absurd h (by decide)
  rcases mem_of_mem_replaceChar h with h | ⟨_, hne⟩
  · exact absurd h (by decide)
  · exact hne rfl

theorem apos_not_mem_escapeHTML (s : List Char) : aposChar ∉ escapeHTML s := by
  intro h
  rcases mem_of_mem_replaceChar h with h | ⟨_, hne⟩
  · exact absurd h (by decide)
  · exact hne rfl

theorem escapeHTML_eq_self {s : List Char} (h1 : '&' ∉ s) (h2 : '<' ∉ s)
    (h3 : '>' ∉ s) (h4 : '"' ∉ s) (h5 : aposChar ∉ s) : escapeHTML s = s := by
  unfold escapeHTML
  rw [replaceChar_of_not_mem _ h1, replaceChar_of_not_mem _ h2,
    replaceChar_of_not_mem _ h3, replaceChar_of_not_mem _ h4,
    replaceChar_of_not_mem _ h5]

theorem ne_of_wordChar {c d : Char} (h : wordChar c = true) (hd : wordChar d = false) :
    c ≠ d := by
  intro he
  rw [he, hd] at h
  exact Bool.false_ne_true h

theorem ne_of_attrNameChar {c d : Char} (h : attrNameChar c = true)
    (hd : attrNameChar d = false) : c ≠ d := by
  intro he
  rw [he, hd] at h
  exact Bool.false_ne_true h

theorem not_mem_of_wordChars {x : List Char} {d : Char}
    (h : ∀ c ∈ x, wordChar c = true) (hd : wordChar d = false) : d ∉ x := by
  intro hm
  exact ne_of_wordChar (h d hm) hd rfl

theorem escapeHTML_of_wordChars {x : List Char} (h : ∀ c ∈ x, wordChar c = true) :
    escapeHTML x = x :=
  escapeHTML_eq_self (not_mem_of_wordChars h (by decide))
    (not_mem_of_wordChars h (by decide)) (not_mem_of_wordChars h (by decide))
    (not_mem_of_wordChars h (by decide)) (not_mem_of_wordChars h (by decide))

theorem takeWhile_all_append {p : Char → Bool} {a : List Char} (b : List Char)
    (ha : ∀ c ∈ a, p c = true) : (a ++ b).takeWhile p = a ++ b.takeWhile p := by
  induction a with
  | nil => rfl
  | cons c t ih =>
    rw [List.cons_append, List.takeWhile_cons, if_pos (ha c (List.mem_cons_self c t)),
      ih (fun d hd => ha d (List.mem_cons_of_mem _ hd)), List.cons_append]

theorem takeWhile_cons_false {p : Char → Bool} {c : Char} (l : List Char)
    (h : p c = false) : (c :: l).takeWhile p = [] := by
  rw [List.takeWhile_cons, if_neg (by simp [h])]

theorem takeWhile_append_stop {p : Char → Bool} {a : List Char} {d : Char} (b : List Char)
    (ha : ∀ c ∈ a, p c = true) (hd : p d = false) : (a ++ d :: b).takeWhile p = a := by
  rw [takeWhile_all_append _ ha, takeWhile_cons_false _ hd, List.append_nil]

theorem takeWhile_append_inner {p : Char → Bool} {a : List Char} (b : List Char)
    (ha : ∃ c ∈ a, p c = false) : (a ++ b).takeWhile p = a.takeWhile p := by
  induction a with
  | nil =>
    rcases ha with ⟨c, hc, _⟩
    exact absurd hc (List.not_mem_nil c)
  | cons c t ih =>
    by_cases hpc : p c = true
    · rcases ha with ⟨d, hd, hpd⟩
      rcases List.mem_cons.mp hd with rfl | hdt
      · rw [hpc] at hpd; exact absurd hpd (by simp)
      · rw [List.cons_append, List.takeWhile_cons, if_pos hpc, List.takeWhile_cons,
          if_pos hpc, ih ⟨d, hdt, hpd⟩]
    · rw [List.cons_append, takeWhile_cons_false _ (Bool.eq_false_iff.mpr hpc),
        takeWhile_cons_false _ (Bool.eq_false_iff.mpr hpc)]

theorem dropWhile_head_false {p : Char → Bool} {l : List Char} {d : Char} {r : List Char}
    (h : l.dropWhile p = d :: r) : p d = false := by
  induction l with
  | nil => simp [List.dropWhile] at h
  | cons a t ih =>
    rw [List.dropWhile_cons] at h
    by_cases hpa : p a = true
    · rw [if_pos hpa] at h
      exact ih h
    · rw [if_neg hpa] at h
      cases h
      exact Bool.eq_false_iff.mpr hpa

theorem dropWhile_eq_nil_all {p : Char → Bool} {l : List Char}
    (h : l.dropWhile p = []) : ∀ c ∈ l, p c = true := by
  induction l with
  | nil => intro c hc; exact absurd hc (List.not_mem_nil c)
  | cons a t ih =>
    rw [List.dropWhile_cons] at h
    by_cases hpa : p a = true
    · rw [if_pos hpa] at h
      intro c hc
      rcases List.mem_cons.mp hc with rfl | hct
      · exact hpa
      · exact ih h c hct
    · rw [if_neg hpa] at h
      exact absurd h (by simp)

theorem drop_takeWhile_eq_dropWhile (p : Char → Bool) (l : List Char) :
    l.drop (l.takeWhile p).length = l.dropWhile p := by
  induction l with
  | nil => rfl
  | cons a t ih =>
    rw [List.takeWhile_cons, List.dropWhile_cons]
    by_cases hpa : p a = true
    · rw [if_pos hpa, if_pos hpa, List.length_cons, List.drop_succ_cons, ih]
    · rw [if_neg hpa, if_neg hpa, List.length_nil, List.drop_zero]

theorem takeWhile_append_dropWhile_eq (p : Char → Bool) (l : List Char) :
    l.takeWhile p ++ l.drop (l.takeWhile p).length = l := by
  rw [drop_takeWhile_eq_dropWhile]
  exact List.takeWhile_append_dropWhile (p := p) (l := l)

theorem expectChar_eq_some {c : Char} {s t : List Char} (h : expectChar c s = some t) :
    s = c :: t := by
  cases s with
  | nil => exact absurd h (by simp [expectChar])
  | cons d rest =>
    rw [expectChar] at h
    by_cases hdc : d = c
    · rw [if_pos hdc] at h
      cases h
      rw [hdc]
    · rw [if_neg hdc] at h
      exact absurd h (by simp)

theorem expectChar_cons_ne {c d : Char} (rest : List Char) (h : d ≠ c) :
    expectChar c (d :: rest) = none := by
  rw [expectChar, if_neg h]

theorem expectChar_cons_self (c : Char) (rest : List Char) :
    expectChar c (c :: rest) = some rest := by
  rw [expectChar, if_pos rfl]

theorem isPrefixOf_append_self (l t : List Char) : l.isPrefixOf (l ++ t) = true := by
  induction l with
  | nil => simp [List.isPrefixOf]
  | cons c r ih => simp [List.isPrefixOf, ih]

theorem isPrefixOf_cons_ne {a b : Char} (l1 l2 : List Char) (h : a ≠ b) :
    (a :: l1).isPrefixOf (b :: l2) = false := by
  simp [List.isPrefixOf, h]

theorem contentMatch000_some {s run rest2 : List Char}
    (h : contentMatch000 s = some (run, rest2)) :
    s = '(' :: '{' :: (run ++ '}' :: ')' :: rest2) ∧ run ≠ [] := by
  unfold contentMatch000 at h
  split at h
  · exact absurd h (by simp)
  next s1 h1 =>
    split at h
    · exact absurd h (by simp)
    next rest h2 =>
      split at h
      · exact absurd h (by simp)
      next hrun =>
        split at h
        · exact absurd h (by simp)
        next t1 h3 =>
          split at h
          · exact absurd h (by simp)
          next r2 h4 =>
            rw [Option.some_inj] at h
            obtain ⟨hrun_eq, hrest2⟩ := Prod.mk.injEq .. ▸ h
            have hdecomp : rest = run ++ ('}' :: ')' :: rest2) := by
              conv_lhs => rw [← takeWhile_append_dropWhile_eq wordChar rest]
              rw [expectChar_eq_some h3, expectChar_eq_some h4, hrest2, hrun_eq]
            constructor
            · rw [expectChar_eq_some h1, expectChar_eq_some h2, hdecomp]
            · intro he
              rw [he] at hrun_eq
              exact hrun (by rw [hrun_eq]; rfl)

theorem contentMatch000_length {s run rest2 : List Char}
    (h : contentMatch000 s = some (run, rest2)) :
    rest2.length + 5 ≤ s.length := by
  obtain ⟨hs, hrun⟩ := contentMatch000_some h
  have hr : 1 ≤ run.length := by
    cases run with
    | nil => exact absurd rfl hrun
    | cons c t => simp
  rw [hs]
  simp [List.length_append]
  omega

theorem contentLoop000_nil (fuel : Nat) : contentLoop000 fuel [] = [] := by
  cases fuel <;> rfl

theorem contentLoop000_irrel :
    ∀ (n f1 f2 : Nat) (s : List Char), s.length ≤ n → s.length ≤ f1 → s.length ≤ f2 →
      contentLoop000 f1 s = contentLoop000 f2 s := by
  intro n
  induction n with
  | zero =>
    intro f1 f2 s hn _ _
    have hs : s = [] := List.eq_nil_of_length_eq_zero (Nat.le_zero.mp hn)
    rw [hs, contentLoop000_nil, contentLoop000_nil]
  | succ n ih =>
    intro f1 f2 s hn h1 h2
    cases s with
    | nil => rw [contentLoop000_nil, contentLoop000_nil]
    | cons c rest =>
      have hlen : (c :: rest).length = rest.length + 1 := by simp
      cases f1 with
      | zero => omega
      | succ f1 =>
        cases f2 with
        | zero => omega
        | succ f2 =>
          cases hm : contentMatch000 (c :: rest) with
          | some p =>
            obtain ⟨run, rest2⟩ := p
            have hle := contentMatch000_length hm
            simp only [contentLoop000, hm]
            rw [ih f1 f2 rest2 (by omega) (by omega) (by omega)]
          | none =>
            simp only [contentLoop000, hm]
            rw [ih f1 f2 rest (by omega) (by omega) (by omega)]

theorem contentRewrite000_step_match {s run rest2 : List Char}
    (h : contentMatch000 s = some (run, rest2)) :
    contentRewrite000 s = span000open ++ run ++ span000close ++ contentRewrite000 rest2 := by
  obtain ⟨hs, _⟩ := contentMatch000_some h
  unfold contentRewrite000
  rw [hs] at h ⊢
  simp only [List.length_cons]
  simp only [contentLoop000, h]
  have hirr := contentLoop000_irrel ((run ++ '}' :: ')' :: rest2).length + 1)
    ((run ++ '}' :: ')' :: rest2).length + 1) rest2.length rest2
    (by simp [List.length_append]; omega) (by simp [List.length_append]; omega) (by omega)
  rw [hirr]

theorem contentRewrite000_step_skip {c : Char} {rest : List Char}
    (h : contentMatch000 (c :: rest) = none) :
    contentRewrite000 (c :: rest) = c :: contentRewrite000 rest := by
  unfold contentRewrite000
  simp only [List.length_cons]
  simp only [contentLoop000, h]

theorem contentMatch000_cons_ne {c : Char} (rest : List Char) (h : c ≠ '(') :
    contentMatch000 (c :: rest) = none := by
  unfold contentMatch000
  rw [expectChar_cons_ne _ h]

theorem contentRewrite000_no_open {s : List Char} (h : '(' ∉ s) :
    contentRewrite000 s = s := by
  induction s with
  | nil => rfl
  | cons c rest ih =>
    have hc : c ≠ '(' := by
      intro he
      subst he
      exact h (List.mem_cons_self _ _)
    rw [contentRewrite000_step_skip (contentMatch000_cons_ne rest hc),
      ih (fun hm => h (List.mem_cons_of_mem _ hm))]

theorem contentMatch002_some {s run rest2 : List Char}
    (h : contentMatch002 s = some (run, rest2)) :
    s = '(' :: '{' :: (run ++ '}' :: ')' :: rest2) ∧ run ≠ [] := by
  unfold contentMatch002 at h
  split at h
  · exact absurd h (by simp)
  next s1 h1 =>
    split at h
    · exact absurd h (by simp)
    next rest h2 =>
      split at h
      · exact absurd h (by simp)
      next hrun =>
        split at h
        · exact absurd h (by simp)
        next t1 h3 =>
          split at h
          · exact absurd h (by simp)
          next r2 h4 =>
            rw [Option.some_inj] at h
            obtain ⟨hrun_eq, hrest2⟩ := Prod.mk.injEq .. ▸ h
            have hdecomp : rest = run ++ ('}' :: ')' :: rest2) := by
              conv_lhs => rw [← takeWhile_append_dropWhile_eq (fun c => c != '}') rest]
              rw [expectChar_eq_some h3, expectChar_eq_some h4, hrest2, hrun_eq]
            constructor
            · rw [expectChar_eq_some h1, expectChar_eq_some h2, hdecomp]
            · intro he
              rw [he] at hrun_eq
              exact hrun (by rw [hrun_eq]; rfl)

theorem contentMatch002_length {s run rest2 : List Char}
    (h : contentMatch002 s = some (run, rest2)) :
    rest2.length + 5 ≤ s.length := by
  obtain ⟨hs, hrun⟩ := contentMatch002_some h
  have hr : 1 ≤ run.length := by
    cases run with
    | nil => exact absurd rfl hrun
    | cons c t => simp
  rw [hs]
  simp [List.length_append]
  omega

theorem contentLoop002_nil (fuel : Nat) : contentLoop002 fuel [] = [] := by
  cases fuel <;> rfl

theorem contentLoop002_irrel :
    ∀ (n f1 f2 : Nat) (s : List Char), s.length ≤ n → s.length ≤ f1 → s.length ≤ f2 →
      contentLoop002 f1 s = contentLoop002 f2 s := by
  intro n
  induction n with
  | zero =>
    intro f1 f2 s hn _ _
    have hs : s = [] := List.eq_nil_of_length_eq_zero (Nat.le_zero.mp hn)
    rw [hs, contentLoop002_nil, contentLoop002_nil]
  | succ n ih =>
    intro f1 f2 s hn h1 h2
    cases s with
    | nil => rw [contentLoop002_nil, contentLoop002_nil]
    | cons c rest =>
      have hlen : (c :: rest).length = rest.length + 1 := by simp
      cases f1 with
      | zero => omega
      | succ f1 =>
        cases f2 with
        | zero => omega
        | succ f2 =>
          cases hm : contentMatch002 (c :: rest) with
          | some p =>
            obtain ⟨run, rest2⟩ := p
            have hle := contentMatch002_length hm
            simp only [contentLoop002, hm]
            rw [ih f1 f2 rest2 (by omega) (by omega) (by omega)]
          | none =>
            simp only [contentLoop002, hm]
            rw [ih f1 f2 rest (by omega) (by omega) (by omega)]

theorem contentRewrite002_step_match {s run rest2 : List Char}
    (h : contentMatch002 s = some (run, rest2)) :
    contentRewrite002 s
      = span000open ++ escapeHTML run ++ span002mid ++ escapeHTML run ++ span002close
          ++ contentRewrite002 rest2 := by
  obtain ⟨hs, _⟩ := contentMatch002_some h
  unfold contentRewrite002
  rw [hs] at h ⊢
  simp only [List.length_cons]
  simp only [contentLoop002, h]
  have hirr := contentLoop002_irrel ((run ++ '}' :: ')' :: rest2).length + 1)
    ((run ++ '}' :: ')' :: rest2).length + 1) rest2.length rest2
    (by simp [List.length_append]; omega) (by simp [List.length_append]; omega) (by omega)
  rw [hirr]

theorem contentRewrite002_step_skip {c : Char} {rest : List Char}
    (h : contentMatch002 (c :: rest) = none) :
    contentRewrite002 (c :: rest) = c :: contentRewrite002 rest := by
  unfold contentRewrite002
  simp only [List.length_cons]
  simp only [contentLoop002, h]

theorem contentMatch002_cons_ne {c : Char} (rest : List Char) (h : c ≠ '(') :
    contentMatch002 (c :: rest) = none := by
  unfold contentMatch002
  rw [expectChar_cons_ne _ h]

theorem contentRewrite002_no_open {s : List Char} (h : '(' ∉ s) :
    contentRewrite002 s = s := by
  induction s with
  | nil => rfl
  | cons c rest ih =>
    have hc : c ≠ '(' := by
      intro he
      subst he
      exact h (List.mem_cons_self _ _)
    rw [contentRewrite002_step_skip (contentMatch002_cons_ne rest hc),
      ih (fun hm => h (List.mem_cons_of_mem _ hm))]

theorem attrMatchHere_some {s full a v rest2 : List Char}
    (h : attrMatchHere s = some (full, a, v, rest2)) :
    s = a ++ '=' :: '"' :: '(' :: '{' :: (v ++ '}' :: ')' :: '"' :: rest2)
      ∧ a ≠ [] ∧ v ≠ []
      ∧ full = a ++ '=' :: '"' :: '(' :: '{' :: (v ++ ['}', ')', '"']) := by
  unfold attrMatchHere at h
  split at h
  · exact absurd h (by simp)
  next hrun1 =>
    split at h
    · exact absurd h (by simp)
    next s1 h1 =>
      split at h
      · exact absurd h (by simp)
      next s2 h2 =>
        split at h
        · exact absurd h (by simp)
        next s3 h3 =>
          split at h
          · exact absurd h (by simp)
          next rest1 h4 =>
            split at h
            · exact absurd h (by simp)
            next hrun2 =>
              split at h
              · exact absurd h (by simp)
              next t1 h5 =>
                split at h
                · exact absurd h (by simp)
                next t2 h6 =>
                  split at h
                  · exact absurd h (by simp)
                  next r2 h7 =>
                    simp only [Option.some_inj, Prod.mk.injEq] at h
                    obtain ⟨hf, ha, hv, hr⟩ := h
                    have hdecomp1 : s = a ++ ('=' :: '"' :: '(' :: '{' :: rest1) := by
                      conv_lhs => rw [← takeWhile_append_dropWhile_eq attrNameChar s]
                      rw [expectChar_eq_some h1, expectChar_eq_some h2,
                        expectChar_eq_some h3, expectChar_eq_some h4, ha]
                    have hdecomp2 : rest1 = v ++ ('}' :: ')' :: '"' :: rest2) := by
                      conv_lhs => rw [← takeWhile_append_dropWhile_eq wordChar rest1]
                      rw [expectChar_eq_some h5, expectChar_eq_some h6,
                        expectChar_eq_some h7, hr, hv]
                    refine ⟨?_, ?_, ?_, ?_⟩
                    · rw [hdecomp1, hdecomp2]
                    · intro he
                      rw [he] at ha
                      exact hrun1 (by rw [ha]; rfl)
                    · intro he
                      rw [he] at hv
                      exact hrun2 (by rw [hv]; rfl)
                    · rw [← hf, ha, hv]

theorem attrMatchHere_length {s full a v rest2 : List Char}
    (h : attrMatchHere s = some (full, a, v, rest2)) :
    rest2.length + 9 ≤ s.length := by
  obtain ⟨hs, ha, hv, _⟩ := attrMatchHere_some h
  have h1 : 1 ≤ a.length := by
    cases a with
    | nil => exact absurd rfl ha
    | cons c t => simp
  have h2 : 1 ≤ v.length := by
    cases v with
    | nil => exact absurd rfl hv
    | cons c t => simp
  rw [hs]
  simp [List.length_append]
  omega

theorem attrMatchesLoop_nil (fuel : Nat) : attrMatchesLoop fuel [] = [] := by
  cases fuel <;> rfl

theorem attrMatchesLoop_irrel :
    ∀ (n f1 f2 : Nat) (s : List Char), s.length ≤ n → s.length ≤ f1 → s.length ≤ f2 →
      attrMatchesLoop f1 s = attrMatchesLoop f2 s := by
  intro n
  induction n with
  | zero =>
    intro f1 f2 s hn _ _
    have hs : s = [] := List.eq_nil_of_length_eq_zero (Nat.le_zero.mp hn)
    rw [hs, attrMatchesLoop_nil, attrMatchesLoop_nil]
  | succ n ih =>
    intro f1 f2 s hn h1 h2
    cases s with
    | nil => rw [attrMatchesLoop_nil, attrMatchesLoop_nil]
    | cons c rest =>
      have hlen : (c :: rest).length = rest.length + 1 := by simp
      cases f1 with
      | zero => omega
      | succ f1 =>
        cases f2 with
        | zero => omega
        | succ f2 =>
          cases hm : attrMatchHere (c :: rest) with
          | some p =>
            obtain ⟨full, a, v, rest2⟩ := p
            have hle := attrMatchHere_length hm
            simp only [attrMatchesLoop, hm]
            rw [ih f1 f2 rest2 (by omega) (by omega) (by omega)]
          | none =>
            simp only [attrMatchesLoop, hm]
            exact ih f1 f2 rest (by omega) (by omega) (by omega)

theorem attrMatches_step_match {s full a v rest2 : List Char}
    (h : attrMatchHere s = some (full, a, v, rest2)) :
    attrMatches s = (full, a, v) :: attrMatches rest2 := by
  have hle := attrMatchHere_length h
  obtain ⟨hs, _, _, _⟩ := attrMatchHere_some h
  unfold attrMatches
  cases hc : s with
  | nil => rw [hc] at hs; exact absurd hs (by simp)
  | cons c rest =>
    rw [hc] at h hle
    simp only [List.length_cons]
    simp only [attrMatchesLoop, h]
    have hirr := attrMatchesLoop_irrel rest.length rest.length rest2.length rest2
      (by simp at hle; omega) (by simp at hle; omega) (by omega)
    rw [hirr]

theorem attrMatches_step_skip {c : Char} {rest : List Char}
    (h : attrMatchHere (c :: rest) = none) :
    attrMatches (c :: rest) = attrMatches rest := by
  unfold attrMatches
  simp only [List.length_cons]
  simp only [attrMatchesLoop, h]

theorem attrMatchHere_no_eq {s : List Char} (h : '=' ∉ s) : attrMatchHere s = none := by
  unfold attrMatchHere
  by_cases hrun : (s.takeWhile attrNameChar).isEmpty
  · rw [if_pos hrun]
  · rw [if_neg hrun]
    cases hd : s.drop (s.takeWhile attrNameChar).length with
    | nil => rfl
    | cons d t =>
      have hdm : d ∈ s :=
        List.drop_subset _ _ (by rw [hd]; exact List.mem_cons_self d t)
      have hne : d ≠ '=' := fun he => h (he ▸ hdm)
      rw [expectChar_cons_ne _ hne]

theorem attrMatches_no_eq {s : List Char} (h : '=' ∉ s) : attrMatches s = [] := by
  induction s with
  | nil => rfl
  | cons c rest ih =>
    rw [attrMatches_step_skip (attrMatchHere_no_eq h),
      ih (fun hm => h (List.mem_cons_of_mem _ hm))]

theorem attrRewrite_no_eq {s : List Char} (h : '=' ∉ s) : attrRewrite s = s := by
  unfold attrRewrite
  rw [attrMatches_no_eq h]
  rfl

theorem replaceFirst_cons_no {pat : List Char} {c : Char} {rest : List Char}
    (rep : List Char) (h : pat.isPrefixOf (c :: rest) = false) :
    replaceFirst pat rep (c :: rest) = c :: replaceFirst pat rep rest := by
  rw [replaceFirst, if_neg (by simp [h])]

theorem replaceFirst_here {pat : List Char} (rep tail : List Char) (hp : pat ≠ []) :
    replaceFirst pat rep (pat ++ tail) = rep ++ tail := by
  cases pat with
  | nil => exact absurd rfl hp
  | cons p ps =>
    rw [List.cons_append, replaceFirst,
      if_pos (by rw [← List.cons_append]; exact isPrefixOf_append_self (p :: ps) tail)]
    rw [← List.cons_append, List.drop_left]

theorem trimWs_cons_append {a b : Char} (mid : List Char)
    (ha : isWs a = false) (hb : isWs b = false) :
    trimWs (a :: (mid ++ [b])) = a :: (mid ++ [b]) := by
  unfold trimWs
  rw [List.dropWhile_cons, if_neg (by simp [ha])]
  rw [show (a :: (mid ++ [b])).reverse = b :: (mid.reverse ++ [a]) from by simp]
  rw [List.dropWhile_cons, if_neg (by simp [hb])]
  simp

theorem buildStr000_single (t : List Char) : buildStr000 [t] [] = t := by
  rw [buildStr000, buildStr000, List.append_nil]

theorem buildStr002_single (t : List Char) : buildStr002 [t] [] = t := rfl

theorem buildStr002_pair (t0 t1 v : List Char) :
    buildStr002 [t0, t1] [v] = t0 ++ escapeHTML v ++ t1 := by
  simp [buildStr002, List.append_assoc]

theorem dropWhile_append_inner {p : Char → Bool} {a : List Char} (b : List Char)
    (ha : ∃ c ∈ a, p c = false) : (a ++ b).dropWhile p = a.dropWhile p ++ b := by
  induction a with
  | nil =>
    rcases ha with ⟨c, hc, _⟩
    exact absurd hc (List.not_mem_nil c)
  | cons c t ih =>
    by_cases hpc : p c = true
    · rcases ha with ⟨d, hd, hpd⟩
      rcases List.mem_cons.mp hd with rfl | hdt
      · rw [hpc] at hpd; exact absurd hpd (by simp)
      · rw [List.cons_append, List.dropWhile_cons, if_pos hpc, List.dropWhile_cons,
          if_pos hpc, ih ⟨d, hdt, hpd⟩]
    · rw [List.cons_append, List.dropWhile_cons, if_neg hpc, List.dropWhile_cons,
        if_neg hpc, List.cons_append]

theorem contentMatch000_at (x rest2 : List Char) (hx : x ≠ [])
    (hxc : ∀ c ∈ x, wordChar c = true) :
    contentMatch000 ('(' :: '{' :: (x ++ '}' :: ')' :: rest2)) = some (x, rest2) := by
  unfold contentMatch000
  have ht : (x ++ '}' :: ')' :: rest2).takeWhile wordChar = x :=
    takeWhile_append_stop _ hxc (by decide)
  have hemp : ¬ (x.isEmpty = true) := by
    rw [List.isEmpty_iff]
    exact hx
  simp only [expectChar_cons_self, ht, List.drop_left, if_neg hemp]

theorem contentMatch002_at (x rest2 : List Char) (hx : x ≠ [])
    (hxc : '}' ∉ x) :
    contentMatch002 ('(' :: '{' :: (x ++ '}' :: ')' :: rest2)) = some (x, rest2) := by
  unfold contentMatch002
  have hxc2 : ∀ c ∈ x, (c != '}') = true := by
    intro c hc
    simp only [bne_iff_ne]
    intro he
    subst he
    exact hxc hc
  have ht : (x ++ '}' :: ')' :: rest2).takeWhile (fun c => c != '}') = x :=
    takeWhile_append_stop _ hxc2 (by decide)
  have hemp : ¬ (x.isEmpty = true) := by
    rw [List.isEmpty_iff]
    exact hx
  simp only [expectChar_cons_self, ht, List.drop_left, if_neg hemp]

theorem contentMatch000_malformed {x : List Char} (tail : List Char)
    (hbad : ∃ c ∈ x, wordChar c = false) (hnb : '}' ∉ x) :
    contentMatch000 ('(' :: '{' :: (x ++ tail)) = none := by
  unfold contentMatch000
  simp only [expectChar_cons_self]
  by_cases hemp : ((x ++ tail).takeWhile wordChar).isEmpty = true
  · rw [if_pos hemp]
  · rw [if_neg hemp]
    rw [drop_takeWhile_eq_dropWhile, dropWhile_append_inner tail hbad]
    cases hdw : x.dropWhile wordChar with
    | nil =>
      obtain ⟨c, hc, hcf⟩ := hbad
      exact absurd (dropWhile_eq_nil_all hdw c hc) (by simp [hcf])
    | cons d dr =>
      have hdf : wordChar d = false := dropWhile_head_false hdw
      have hdx : d ∈ x := by
        have h0 : d ∈ x.takeWhile wordChar ++ x.dropWhile wordChar :=
          List.mem_append_right _ (by rw [hdw]; exact List.mem_cons_self d dr)
        rw [List.takeWhile_append_dropWhile] at h0
        exact h0
      have hdne : d ≠ '}' := fun he => hnb (he ▸ hdx)
      rw [List.cons_append, expectChar_cons_ne _ hdne]

theorem attrMatchHere_head_bad {c : Char} (r : List Char) (h : attrNameChar c = false) :
    attrMatchHere (c :: r) = none := by
  unfold attrMatchHere
  rw [takeWhile_cons_false _ h]
  rfl

theorem attrMatchHere_two {c d : Char} (r : List Char) (hc : attrNameChar c = true)
    (hd : attrNameChar d = false) (hne : d ≠ '=') :
    attrMatchHere (c :: d :: r) = none := by
  unfold attrMatchHere
  have ht : (c :: d :: r).takeWhile attrNameChar = [c] := by
    rw [List.takeWhile_cons, if_pos hc, takeWhile_cons_false _ hd]
  rw [ht, if_neg (by simp)]
  rw [show List.drop ([c] : List Char).length (c :: d :: r) = d :: r from rfl]
  rw [expectChar_cons_ne _ hne]

theorem attrMatchHere_at (k x rest2 : List Char) (hk : k ≠ [])
    (hkc : ∀ c ∈ k, attrNameChar c = true) (hx : x ≠ [])
    (hxc : ∀ c ∈ x, wordChar c = true) :
    attrMatchHere (k ++ '=' :: '"' :: '(' :: '{' :: (x ++ '}' :: ')' :: '"' :: rest2))
      = some (attrFull k x, k, x, rest2) := by
  unfold attrMatchHere attrFull
  have ht1 : (k ++ '=' :: '"' :: '(' :: '{' :: (x ++ '}' :: ')' :: '"' :: rest2)).takeWhile
      attrNameChar = k :=
    takeWhile_append_stop _ hkc (by decide)
  have ht2 : (x ++ '}' :: ')' :: '"' :: rest2).takeWhile wordChar = x :=
    takeWhile_append_stop _ hxc (by decide)
  have hempk : ¬ (k.isEmpty = true) := by
    rw [List.isEmpty_iff]
    exact hk
  have hempx : ¬ (x.isEmpty = true) := by
    rw [List.isEmpty_iff]
    exact hx
  simp only [ht1, ht2, List.drop_left, if_neg hempk, if_neg hempx, expectChar_cons_self]

theorem isPrefixOf_cons_cons_false {a : Char} {l1 l2 : List Char}
    (h : l1.isPrefixOf l2 = false) : (a :: l1).isPrefixOf (a :: l2) = false := by
  simp [List.isPrefixOf, h]

theorem not_mem_append {d : Char} {a b : List Char} (ha : d ∉ a) (hb : d ∉ b) :
    d ∉ a ++ b := by
  intro hm
  rcases List.mem_append.mp hm with h | h
  · exact ha h
  · exact hb h

theorem not_mem_cons {d c : Char} {l : List Char} (h1 : d ≠ c) (h2 : d ∉ l) :
    d ∉ c :: l := by
  intro hm
  rcases List.mem_cons.mp hm with h | h
  · exact h1 h
  · exact h2 h

theorem not_mem_of_attrNameChars {x : List Char} {d : Char}
    (h : ∀ c ∈ x, attrNameChar c = true) (hd : attrNameChar d = false) : d ∉ x := by
  intro hm
  exact ne_of_attrNameChar (h d hm) hd rfl

theorem replaceFirst_wrap (k x tail rep : List Char) (hk : k ≠ [])
    (hkc : ∀ c ∈ k, attrNameChar c = true) :
    replaceFirst (attrFull k x) rep ('<' :: 'p' :: ' ' :: (attrFull k x ++ tail))
      = '<' :: 'p' :: ' ' :: (rep ++ tail) := by
  cases k with
  | nil => exact absurd rfl hk
  | cons k0 k1 =>
    have hk0 : attrNameChar k0 = true := hkc k0 (List.mem_cons_self _ _)
    have hful : attrFull (k0 :: k1) x
        = k0 :: (k1 ++ '=' :: '"' :: '(' :: '{' :: (x ++ ['}', ')', '"'])) := by
      rw [attrFull, List.cons_append]
    have h1 : (attrFull (k0 :: k1) x).isPrefixOf
        ('<' :: 'p' :: ' ' :: (attrFull (k0 :: k1) x ++ tail)) = false := by
      rw [hful]
      exact isPrefixOf_cons_ne _ _ (ne_of_attrNameChar hk0 (by decide))
    have h2 : (attrFull (k0 :: k1) x).isPrefixOf
        ('p' :: ' ' :: (attrFull (k0 :: k1) x ++ tail)) = false := by
      rw [hful]
      by_cases hkp : k0 = 'p'
      · subst hkp
        apply isPrefixOf_cons_cons_false
        cases k1 with
        | nil =>
          rw [List.nil_append]
          exact isPrefixOf_cons_ne _ _ (by decide)
        | cons d k2 =>
          rw [List.cons_append]
          exact isPrefixOf_cons_ne _ _
            (ne_of_attrNameChar
              (hkc d (List.mem_cons_of_mem _ (List.mem_cons_self _ _))) (by decide))
      · exact isPrefixOf_cons_ne _ _ hkp
    have h3 : (attrFull (k0 :: k1) x).isPrefixOf
        (' ' :: (attrFull (k0 :: k1) x ++ tail)) = false := by
      rw [hful]
      exact isPrefixOf_cons_ne _ _ (ne_of_attrNameChar hk0 (by decide))
    rw [replaceFirst_cons_no _ h1, replaceFirst_cons_no _ h2, replaceFirst_cons_no _ h3,
      replaceFirst_here _ _ (by rw [hful]; exact List.cons_ne_nil _ _)]

theorem attrMatches_wrap (k x tail : List Char) (hk : k ≠ [])
    (hkc : ∀ c ∈ k, attrNameChar c = true) (hx : x ≠ [])
    (hxc : ∀ c ∈ x, wordChar c = true) (htail : '=' ∉ tail) :
    attrMatches
      ('<' :: 'p' :: ' ' :: (k ++ '=' :: '"' :: '(' :: '{' :: (x ++ '}' :: ')' :: '"' :: tail)))
      = [(attrFull k x, k, x)] := by
  rw [attrMatches_step_skip (attrMatchHere_head_bad _ (by decide))]
  rw [attrMatches_step_skip (attrMatchHere_two _ (by decide) (by decide) (by decide))]
  rw [attrMatches_step_skip (attrMatchHere_head_bad _ (by decide))]
  rw [attrMatches_step_match (attrMatchHere_at k x tail hk hkc hx hxc)]
  rw [attrMatches_no_eq htail]

theorem trimWs_span000 (x : List Char) :
    trimWs (span000open ++ x ++ span000close) = span000open ++ x ++ span000close := by
  have hshape : span000open ++ x ++ span000close
      = '<' :: (("span data-ref=\"".data ++ x ++ "\"></span".data) ++ ['>']) := by
    rw [show span000open = '<' :: "span data-ref=\"".data from rfl,
      show span000close = "\"></span".data ++ ['>'] from rfl]
    simp [List.append_assoc]
  rw [hshape, trimWs_cons_append _ (by decide) (by decide)]

theorem trimWs_span002 (y : List Char) :
    trimWs (span000open ++ y ++ span002mid ++ y ++ span002close)
      = span000open ++ y ++ span002mid ++ y ++ span002close := by
  have hshape : span000open ++ y ++ span002mid ++ y ++ span002close
      = '<' :: (("span data-ref=\"".data ++ y ++ "\">".data ++ y ++ "</span".data) ++ ['>']) := by
    rw [show span000open = '<' :: "span data-ref=\"".data from rfl,
      show span002close = "</span".data ++ ['>'] from rfl,
      show span002mid = '"' :: '>' :: [] from rfl]
    simp [List.append_assoc]
  rw [hshape, trimWs_cons_append _ (by decide) (by decide)]

theorem trimWs_marker (x : List Char) :
    trimWs ('(' :: '{' :: (x ++ ['}', ')'])) = '(' :: '{' :: (x ++ ['}', ')']) := by
  have hshape : '(' :: '{' :: (x ++ ['}', ')'])
      = '(' :: ((('{' :: x) ++ ['}']) ++ [')']) := by
    simp [List.append_assoc]
  rw [hshape, trimWs_cons_append _ (by decide) (by decide)]

theorem not_mem_marker {d : Char} {x : List Char} (h1 : d ≠ '(') (h2 : d ≠ '{')
    (h3 : d ≠ '}') (h4 : d ≠ ')') (h5 : d ∉ x) :
    d ∉ '(' :: '{' :: (x ++ ['}', ')']) :=
  not_mem_cons h1 (not_mem_cons h2 (not_mem_append h5
    (not_mem_cons h3 (not_mem_cons h4 (List.not_mem_nil d)))))

theorem not_mem_marker_tail {d : Char} {x : List Char} (h2 : d ≠ '{')
    (h3 : d ≠ '}') (h4 : d ≠ ')') (h5 : d ∉ x) :
    d ∉ '{' :: (x ++ ['}', ')']) :=
  not_mem_cons h2 (not_mem_append h5
    (not_mem_cons h3 (not_mem_cons h4 (List.not_mem_nil d))))

/-! ## Claim theorems: template compiler -/

/-- Claim C1: in the escaping variant of the template compiler the html
function HTML-escapes every interpolated value before concatenation, turning
each of the five characters amp, lt, gt, quot, apos into its entity
reference, so no raw lt, gt, quote or apostrophe survives escaping and an
interpolated value such as the string of a script tag appears in the
produced fragment markup as escaped text (the markup holds the entity
sequence, so the native parser cannot see an element there). -/
theorem claim_C1 :
    (∀ s : List Char, '<' ∉ escapeHTML s ∧ '>' ∉ escapeHTML s ∧ '"' ∉ escapeHTML s
        ∧ aposChar ∉ escapeHTML s)
    ∧ escapeHTML ['&'] = "&amp;".data
    ∧ escapeHTML ['<'] = "&lt;".data
    ∧ escapeHTML ['>'] = "&gt;".data
    ∧ escapeHTML ['"'] = "&quot;".data
    ∧ escapeHTML [aposChar] = "&#039;".data
    ∧ (∀ t0 t1 v : List Char, buildStr002 [t0, t1] [v] = t0 ++ escapeHTML v ++ t1)
    ∧ htmlStr002 ["<p>".data, "</p>".data] ["<script>".data]
        = "<p>&lt;script&gt;</p>".data :=
  ⟨fun s => ⟨lt_not_mem_escapeHTML s, gt_not_mem_escapeHTML s, quot_not_mem_escapeHTML s,
      apos_not_mem_escapeHTML s⟩,
    by decide, by decide, by decide, by decide, by decide,
    buildStr002_pair, by decide⟩

/-- Claim C10: the escaping variant leaves the placeholder characters
(parens and braces) untouched - escapeHTML is the identity on any string
free of its five target characters - and the marker rewrite runs on the
concatenated string after escaping, so an interpolated dynamic value
consisting of a placeholder produces a live marker span: interpolating the
value "({x})" yields exactly the span markup carrying data-ref x. -/
theorem claim_C10 :
    (∀ s : List Char, '&' ∉ s → '<' ∉ s → '>' ∉ s → '"' ∉ s → aposChar ∉ s →
        escapeHTML s = s)
    ∧ escapeHTML "(\x7bx\x7d)".data = "(\x7bx\x7d)".data
    ∧ htmlStr002 ["".data, "".data] ["(\x7bx\x7d)".data]
        = "<span data-ref=\"x\">x</span>".data :=
  ⟨fun _ h1 h2 h3 h4 h5 => escapeHTML_eq_self h1 h2 h3 h4 h5, by decide, by decide⟩

/-- Witness for claim C10: the general escape-transparency part applied to
the concrete placeholder string. -/
theorem claim_C10_witness :
    escapeHTML "(\x7bab\x7d)".data = "(\x7bab\x7d)".data :=
  claim_C10.1 _ (by decide) (by decide) (by decide) (by decide) (by decide)

/-- Counterexample for claim C6: the escaping variant of the template
compiler rewrites the placeholder text whose identifier "a b" violates the
grammar of word characters (its regex accepts any brace-free body), so the
text is not left as literal content. -/
theorem claim_C6_counterexample :
    htmlStr002 ["(\x7ba b\x7d)".data] [] = "<span data-ref=\"a b\">a b</span>".data
    ∧ htmlStr002 ["(\x7ba b\x7d)".data] [] ≠ "(\x7ba b\x7d)".data :=
  ⟨by decide, by decide⟩

/-- Claim C6 (amended): a content placeholder with a nonempty word-character
identifier compiles, in the raw-interpolation variant, to exactly one empty
marker span carrying that identifier as data-ref; placeholder-like text
whose identifier violates the grammar is left as literal content by the
raw-interpolation variant (stated for bodies free of the marker
metacharacters); and the escaping variant accepts any nonempty brace-free
body, rewriting it into a marker span whose data-ref and visible text are
the escaped body. -/
theorem claim_C6_amended (x : List Char) :
    (x ≠ [] → (∀ c ∈ x, wordChar c = true) →
      htmlStr000 ['(' :: '{' :: (x ++ ['}', ')'])] []
        = span000open ++ x ++ span000close)
    ∧ (x ≠ [] → (∃ c ∈ x, wordChar c = false) → '(' ∉ x → '{' ∉ x → '}' ∉ x → '=' ∉ x →
      htmlStr000 ['(' :: '{' :: (x ++ ['}', ')'])] []
        = '(' :: '{' :: (x ++ ['}', ')']))
    ∧ (x ≠ [] → '}' ∉ x →
      htmlStr002 ['(' :: '{' :: (x ++ ['}', ')'])] []
        = span000open ++ escapeHTML x ++ span002mid ++ escapeHTML x ++ span002close) := by
  refine ⟨?_, ?_, ?_⟩
  · intro hx hxc
    unfold htmlStr000
    rw [buildStr000_single]
    rw [attrRewrite_no_eq (not_mem_marker (by decide) (by decide) (by decide) (by decide)
      (not_mem_of_wordChars hxc (by decide)))]
    rw [contentRewrite000_step_match (contentMatch000_at x [] hx hxc)]
    rw [show contentRewrite000 [] = [] from rfl, List.append_nil]
    exact trimWs_span000 x
  · intro hx hbad hp hb hcb heq
    unfold htmlStr000
    rw [buildStr000_single]
    rw [attrRewrite_no_eq (not_mem_marker (by decide) (by decide) (by decide) (by decide) heq)]
    rw [contentRewrite000_step_skip (contentMatch000_malformed ['}', ')'] hbad hcb)]
    rw [contentRewrite000_no_open (not_mem_marker_tail (by decide) (by decide) (by decide) hp)]
    exact trimWs_marker x
  · intro hx hcb
    unfold htmlStr002
    rw [buildStr002_single]
    rw [contentRewrite002_step_match (contentMatch002_at x [] hx hcb)]
    rw [show contentRewrite002 [] = [] from rfl, List.append_nil]
    exact trimWs_span002 (escapeHTML x)

/-- Witness for claim C6 (amended): the three parts at the concrete
identifiers "x" (well formed) and "a b" (grammar violated). -/
theorem claim_C6_witness :
    htmlStr000 ['(' :: '{' :: ("x".data ++ ['}', ')'])] []
      = span000open ++ "x".data ++ span000close
    ∧ htmlStr000 ['(' :: '{' :: ("a b".data ++ ['}', ')'])] []
      = '(' :: '{' :: ("a b".data ++ ['}', ')'])
    ∧ htmlStr002 ['(' :: '{' :: ("a b".data ++ ['}', ')'])] []
      = span000open ++ escapeHTML "a b".data ++ span002mid
          ++ escapeHTML "a b".data ++ span002close :=
  ⟨(claim_C6_amended "x".data).1 (by decide) (by decide),
    (claim_C6_amended "a b".data).2.1 (by decide) (by decide) (by decide) (by decide)
      (by decide) (by decide),
    (claim_C6_amended "a b".data).2.2 (by decide) (by decide)⟩

/-- Claim C7: for every attribute name of name characters and identifier of
word characters, compiling a template that carries the attribute-marker
syntax on an element rewrites it into the attribute emptied, a companion
data-ref-name attribute whose value is the identifier, and a bare data-ref
marker (in HTML attribute syntax, a bare attribute has the empty string as
its value).  Stated on the markup string handed to the native parser, for
the element wrapper of a p tag. -/
theorem claim_C7 (k x : List Char) (hk : k ≠ []) (hkc : ∀ c ∈ k, attrNameChar c = true)
    (hx : x ≠ []) (hxc : ∀ c ∈ x, wordChar c = true) :
    htmlStr000
      ['<' :: 'p' :: ' ' :: (k ++ '=' :: '"' :: '(' :: '{'
          :: (x ++ '}' :: ')' :: '"' :: '>' :: '<' :: '/' :: 'p' :: '>' :: []))] []
      = '<' :: 'p' :: ' '
          :: (attrReplacement k x ++ '>' :: '<' :: '/' :: 'p' :: '>' :: []) := by
  unfold htmlStr000
  rw [buildStr000_single]
  unfold attrRewrite
  rw [attrMatches_wrap k x ('>' :: '<' :: '/' :: 'p' :: '>' :: []) hk hkc hx hxc (by decide)]
  rw [List.foldl_cons, List.foldl_nil]
  have hshape : k ++ '=' :: '"' :: '(' :: '{'
      :: (x ++ '}' :: ')' :: '"' :: '>' :: '<' :: '/' :: 'p' :: '>' :: [])
      = attrFull k x ++ '>' :: '<' :: '/' :: 'p' :: '>' :: [] := by
    rw [attrFull]
    simp [List.append_assoc]
  rw [hshape]
  rw [replaceFirst_wrap k x ('>' :: '<' :: '/' :: 'p' :: '>' :: []) (attrReplacement k x) hk hkc]
  have hnop : '(' ∉ '<' :: 'p' :: ' '
      :: (attrReplacement k x ++ '>' :: '<' :: '/' :: 'p' :: '>' :: []) := by
    have hK : '(' ∉ k := not_mem_of_attrNameChars hkc (by decide)
    have hX : '(' ∉ x := not_mem_of_wordChars hxc (by decide)
    have hR : '(' ∉ attrReplacement k x :=
      not_mem_append (not_mem_append (not_mem_append (not_mem_append
        (not_mem_append hK (by decide)) hK) (by decide)) hX) (by decide)
    exact not_mem_cons (by decide) (not_mem_cons (by decide) (not_mem_cons (by decide)
      (not_mem_append hR (by decide))))
  rw [contentRewrite000_no_open hnop]
  have hshape2 : '<' :: 'p' :: ' '
      :: (attrReplacement k x ++ '>' :: '<' :: '/' :: 'p' :: '>' :: [])
      = '<' :: (('p' :: ' '
          :: (attrReplacement k x ++ '>' :: '<' :: '/' :: 'p' :: [])) ++ ['>']) := by
    simp [List.append_assoc]
  rw [hshape2, trimWs_cons_append _ (by decide) (by decide)]

/-- Witness for claim C7: the rewrite at the concrete attribute name
"title" and identifier "name". -/
theorem claim_C7_witness :
    htmlStr000
      ['<' :: 'p' :: ' ' :: ("title".data ++ '=' :: '"' :: '(' :: '{'
          :: ("name".data ++ '}' :: ')' :: '"' :: '>' :: '<' :: '/' :: 'p' :: '>' :: []))] []
      = '<' :: 'p' :: ' '
          :: (attrReplacement "title".data "name".data
              ++ '>' :: '<' :: '/' :: 'p' :: '>' :: []) :=
  claim_C7 "title".data "name".data (by decide) (by decide) (by decide) (by decide)

/-! ## Helper lemmas about the component model -/

theorem find?_pair_cons (p : String × Option String → Bool) (a : String × Option String)
    (l : List (String × Option String)) :
    (a :: l).find? p = if p a then some a else l.find? p := by
  cases h : p a <;> simp [List.find?, h]

theorem find?_map_set {props : List (String × Option String)} {k : String} {v : Option String}
    (hany : props.any (fun a => a.1 == k) = true) :
    (props.map (fun a => if a.1 == k then (k, v) else a)).find? (fun a => a.1 == k)
      = some (k, v) := by
  induction props with
  | nil => simp at hany
  | cons a t ih =>
    rw [List.map_cons]
    by_cases hak : (a.1 == k) = true
    · rw [if_pos hak, find?_pair_cons, if_pos (by simp)]
    · rw [if_neg hak]
      rw [List.any_cons] at hany
      have hta : t.any (fun a => a.1 == k) = true := by
        rcases Bool.or_eq_true_iff.mp hany with h1 | h1
        · exact absurd h1 hak
        · exact h1
      rw [find?_pair_cons, if_neg hak]
      exact ih hta

theorem find?_no_match_append {props : List (String × Option String)} {k : String}
    {v : Option String} (hany : props.any (fun a => a.1 == k) = false) :
    (props ++ [(k, v)]).find? (fun a => a.1 == k) = some (k, v) := by
  induction props with
  | nil =>
    rw [List.nil_append, find?_pair_cons, if_pos (by simp)]
  | cons a t ih =>
    rw [List.any_cons] at hany
    rcases Bool.or_eq_false_iff.mp hany with ⟨h1, h2⟩
    rw [List.cons_append, find?_pair_cons, if_neg (by simp [h1]), ih h2]

theorem lookupProp_setProp (props : List (String × Option String)) (k : String)
    (v : Option String) : lookupProp (setProp props k v) k = some v := by
  unfold setProp lookupProp
  by_cases hany : props.any (fun a => a.1 == k) = true
  · rw [if_pos hany, find?_map_set hany]
    rfl
  · have hf : props.any (fun a => a.1 == k) = false := by
      cases hb : props.any (fun a => a.1 == k)
      · rfl
      · exact absurd hb hany
    rw [if_neg hany, find?_no_match_append hf]
    rfl

theorem immediate_false_of_chain_false {chain : List (List String)} {k : String}
    (h : chainHasSetter chain k = false) : immediateProtoSetter chain k = false := by
  cases chain with
  | nil => rfl
  | cons l t =>
    unfold chainHasSetter at h
    rw [List.any_cons] at h
    unfold immediateProtoSetter
    exact (Bool.or_eq_false_iff.mp h).1

/-! ## Claim theorems: component base -/

/-- Counterexample for claim C8: in the variant 001 class, a second decorate
call replaces the adopted sheet list rather than appending, so after two
calls with two different style texts only the second sheet is adopted. -/
theorem claim_C8_counterexample :
    decorate001 (decorate001 [] "a") "b" = [Sheet.mk "b"]
    ∧ Sheet.mk "a" ∉ decorate001 (decorate001 [] "a") "b" :=
  ⟨rfl, by decide⟩

/-- Claim C8 (amended): in the variant 000/002 class decorate compiles each
style text into a sheet and appends it, never removing previously adopted
sheets (the old list is the prefix of the new one), so two calls with two
different texts leave both sheets adopted in call order; in the variant 001
class decorate instead replaces the adopted list with the single new
sheet. -/
theorem claim_C8_amended (adopted : List Sheet) (a b : String) :
    decorate000 (decorate000 adopted (CssArg.one a)) (CssArg.one b)
      = adopted ++ [Sheet.mk a, Sheet.mk b]
    ∧ (∀ (l : List Sheet) (css : CssArg), (decorate000 l css).take l.length = l)
    ∧ (∀ (l : List Sheet) (css : String), decorate001 l css = [Sheet.mk css]) := by
  refine ⟨by simp [decorate000, cssArray], ?_, fun l css => rfl⟩
  intro l css
  unfold decorate000
  exact List.take_left _ _

/-- Counterexample for claim C9: the variant 001 connectedCallback marks
connected and fires the connected hook before rendering, and never marks
initialized or fires an init hook, so its step order differs from the
claimed one. -/
theorem claim_C9_counterexample :
    (connectedCallback001 (Component.mk [] [] false false false [])).2
      = [Ev.markConnected, Ev.connectedHook, Ev.renderCall, Ev.refPass none]
    ∧ (connectedCallback001 (Component.mk [] [] false false false [])).2
      ≠ [Ev.markInitialized, Ev.initHook, Ev.renderCall, Ev.refPass none,
          Ev.markConnected, Ev.connectedHook] :=
  ⟨rfl, by decide⟩

/-- Claim C9 (amended): the variant 000 connectedCallback (variant 002 is
the same code) performs, in order: mark initialized, init hook, render,
full unfiltered reference pass, mark connected, connected hook - and both
flags are set and the pass has run on the root afterwards; the variant 001
connectedCallback instead performs mark connected, connected hook, render,
full reference pass. -/
theorem claim_C9_amended (c : Component) :
    (connectedCallback000 c).2
      = [Ev.markInitialized, Ev.initHook, Ev.renderCall, Ev.refPass none,
          Ev.markConnected, Ev.connectedHook]
    ∧ (connectedCallback000 c).1.initialized = true
    ∧ (connectedCallback000 c).1.connected = true
    ∧ (connectedCallback000 c).1.root = updateReferences c.props none c.root
    ∧ (connectedCallback001 c).2
      = [Ev.markConnected, Ev.connectedHook, Ev.renderCall, Ev.refPass none] :=
  ⟨rfl, rfl, rfl, rfl, rfl⟩

/-- Counterexample for claim C5: an invocation of updateReferences with the
non-null changedKey that is the empty string does not restrict the pass at
all (the source guards the filter behind JS string truthiness, and the
empty string is falsy), so a marker bound to the property "name" - different
from the changedKey - is still updated. -/
theorem claim_C5_counterexample :
    updateElem [("name", some "Ada")] (some "") (Elem.mk "p" [("data-ref", "name")] "old")
      = Elem.mk "p" [("data-ref", "name"), ("data-value", "Ada")] "Ada"
    ∧ updateElem [("name", some "Ada")] (some "") (Elem.mk "p" [("data-ref", "name")] "old")
      ≠ Elem.mk "p" [("data-ref", "name")] "old"
    ∧ ("name" : String) ≠ "" :=
  ⟨by decide, by decide, by decide⟩

/-- Claim C5 (amended): for every invocation of the variant 000 reference
pass with a changedKey that is a nonempty string, a marker bound to a
nonempty property name different from the changedKey is left exactly as it
was; an empty-valued marker has its companion bindings refreshed exactly as
in an unfiltered pass, regardless of the changedKey; a marker bound to the
changedKey itself is processed exactly as in an unfiltered pass; and the
pass over a root processes its elements pointwise.  (An empty-string
changedKey is falsy in JS and disables the filter, which is what the
counterexample exhibits.) -/
theorem claim_C5_amended (props : List (String × Option String)) (ck : String) (e : Elem)
    (hck : ck ≠ "") :
    (∀ p, getAttrElem e "data-ref" = some p → p ≠ "" → p ≠ ck →
      updateElem props (some ck) e = e)
    ∧ (getAttrElem e "data-ref" = some "" →
      updateElem props (some ck) e = updateElem props none e)
    ∧ (getAttrElem e "data-ref" = some ck →
      updateElem props (some ck) e = updateElem props none e)
    ∧ (∀ root, updateReferences props (some ck) root = root.map (updateElem props (some ck))) := by
  refine ⟨?_, ?_, ?_, fun root => rfl⟩
  · intro p hp hpe hpck
    simp only [updateElem, hp]
    rw [if_neg hpe]
    rw [if_pos (by simp [strTruthy, bne_iff_ne, hpck, hck])]
  · intro hp
    simp [updateElem, hp]
  · intro hp
    simp only [updateElem, hp]
    rw [if_neg hck, if_neg hck]
    rw [if_neg (by simp [hck]), if_neg (by simp [hck])]

/-- Witness for claim C5 (amended): a filtered pass with changedKey "a"
leaves a marker bound to "b" untouched, and an empty-valued companion
marker is refreshed as in an unfiltered pass. -/
theorem claim_C5_witness :
    updateElem [("a", some "1"), ("b", some "2")] (some "a")
        (Elem.mk "p" [("data-ref", "b")] "old")
      = Elem.mk "p" [("data-ref", "b")] "old"
    ∧ updateElem [("a", some "1")] (some "a")
        (Elem.mk "img" [("data-ref", ""), ("data-ref-src", "a")] "")
      = updateElem [("a", some "1")] none
        (Elem.mk "img" [("data-ref", ""), ("data-ref-src", "a")] "") :=
  ⟨(claim_C5_amended [("a", some "1"), ("b", some "2")] "a"
      (Elem.mk "p" [("data-ref", "b")] "old") (by decide)).1 "b"
      (by decide) (by decide) (by decide),
    (claim_C5_amended [("a", some "1")] "a"
      (Elem.mk "img" [("data-ref", ""), ("data-ref-src", "a")] "") (by decide)).2.1
      (by decide)⟩

/-- Counterexample for claim C2: the code looks for an own setter only on
the immediate prototype; with a setter named exactly like the attribute
sitting one level further up the chain, the bare-write branch is taken even
though the prototype chain exposes the setter (and the bare write lands on
the camel-cased name, so the setter is never invoked at all). -/
theorem claim_C2_counterexample :
    chainHasSetter [[], ["user-name"]] "user-name" = true
    ∧ (attributeChangedCallback000 (Component.mk [] [[], ["user-name"]] false false false [])
        "user-name" none (some "x")).2 = [Ev.assign "userName" (some "x")]
    ∧ (attributeChangedCallback000 (Component.mk [] [[], ["user-name"]] false false false [])
        "user-name" none (some "x")).1.props = [("userName", some "x")] :=
  ⟨by decide, by decide, by decide⟩

/-- Claim C2 (amended): on an observed-attribute change with differing
values, the setter branch is taken exactly when the immediate prototype has
an own setter named like the attribute - that setter is then invoked with
the new value and no property is written; otherwise the fallback assignment
runs on the camel-cased name, and when there is no setter of that name
anywhere on the chain it is a plain field write leaving the property equal
to the new value. -/
theorem claim_C2_amended (c : Component) (name : String) (oldV newV : Option String)
    (h : oldV ≠ newV) :
    (immediateProtoSetter c.protoSetters name = true →
      (attributeChangedCallback000 c name oldV newV).2.head?
        = some (Ev.setterCall name newV)
      ∧ (attributeChangedCallback000 c name oldV newV).1.props = c.props)
    ∧ (immediateProtoSetter c.protoSetters name = false →
      chainHasSetter c.protoSetters (camelCaseStr name) = false →
      (attributeChangedCallback000 c name oldV newV).2.head?
        = some (Ev.assign (camelCaseStr name) newV)
      ∧ lookupProp (attributeChangedCallback000 c name oldV newV).1.props (camelCaseStr name)
        = some newV) := by
  constructor
  · intro himm
    by_cases hh : c.hasAttrHook <;> by_cases hc : c.connected <;>
      simp [attributeChangedCallback000, h, himm, hh, hc]
  · intro himm hchain
    by_cases hh : c.hasAttrHook <;> by_cases hc : c.connected <;>
      simp [attributeChangedCallback000, assignProp, h, himm, hchain, hh, hc,
        lookupProp_setProp]

/-- Witness for claim C2 (amended): both branches at concrete components -
a setter on the immediate prototype is invoked, and with no setter anywhere
the camel-cased property receives the value. -/
theorem claim_C2_witness :
    (attributeChangedCallback000 (Component.mk [] [["email"]] false false false [])
        "email" none (some "a")).2.head? = some (Ev.setterCall "email" (some "a"))
    ∧ lookupProp (attributeChangedCallback000 (Component.mk [] [] false false false [])
        "user-name" none (some "a")).1.props (camelCaseStr "user-name") = some (some "a") :=
  ⟨((claim_C2_amended (Component.mk [] [["email"]] false false false [])
      "email" none (some "a") (by decide)).1 (by decide)).1,
    ((claim_C2_amended (Component.mk [] [] false false false [])
      "user-name" none (some "a") (by decide)).2 (by decide) (by decide)).2⟩

/-- Counterexample for claim C3: the variant 002 fallback assigns the new
value under the attribute name verbatim, so for the hyphenated attribute
the camel-cased property stays unset while the hyphen-named property holds
the value. -/
theorem claim_C3_counterexample :
    camelCaseStr "user-name" = "userName"
    ∧ lookupProp (attributeChangedCallback002 (Component.mk [] [] false false false [])
        "user-name" none (some "a")).1.props "userName" = none
    ∧ lookupProp (attributeChangedCallback002 (Component.mk [] [] false false false [])
        "user-name" none (some "a")).1.props "user-name" = some (some "a") :=
  ⟨by decide, by decide, by decide⟩

/-- Claim C3 (amended): on an observed-attribute change with differing
values and no matching setter, the variant 000 callback leaves the property
under the camel-cased attribute name equal to the new value, while the
variant 002 callback leaves the property under the attribute name taken
verbatim equal to the new value (so for hyphenated attributes the
camel-cased property is not the one written in variant 002). -/
theorem claim_C3_amended (c : Component) (name : String) (oldV newV : Option String)
    (h : oldV ≠ newV)
    (hchain : chainHasSetter c.protoSetters (camelCaseStr name) = false)
    (hchain2 : chainHasSetter c.protoSetters name = false) :
    lookupProp (attributeChangedCallback000 c name oldV newV).1.props (camelCaseStr name)
      = some newV
    ∧ lookupProp (attributeChangedCallback002 c name oldV newV).1.props name = some newV := by
  have himm : immediateProtoSetter c.protoSetters name = false :=
    immediate_false_of_chain_false hchain2
  constructor
  · by_cases hh : c.hasAttrHook <;> by_cases hc : c.connected <;>
      simp [attributeChangedCallback000, assignProp, h, himm, hchain, hh, hc,
        lookupProp_setProp]
  · by_cases hc : c.connected <;>
      simp [attributeChangedCallback002, assignProp, h, himm, hchain2, hc,
        lookupProp_setProp]

/-- Witness for claim C3 (amended): both reflections at a concrete
component and the hyphenated attribute. -/
theorem claim_C3_witness :
    lookupProp (attributeChangedCallback000 (Component.mk [] [] false false false [])
        "user-name" none (some "v")).1.props (camelCaseStr "user-name") = some (some "v")
    ∧ lookupProp (attributeChangedCallback002 (Component.mk [] [] false false false [])
        "user-name" none (some "v")).1.props "user-name" = some (some "v") :=
  claim_C3_amended (Component.mk [] [] false false false []) "user-name" none (some "v")
    (by decide) (by decide) (by decide)

/-- Counterexample for claim C4: with the hyphenated observed attribute the
new value is assigned under the camel-cased property name, but the
reference pass the callback runs is keyed by the attribute name as given,
which is a different string - so the pass is not restricted to the property
name the value was assigned under. -/
theorem claim_C4_counterexample :
    (attributeChangedCallback000 (Component.mk [] [] false true true [])
        "user-name" none (some "ada")).2
      = [Ev.assign "userName" (some "ada"), Ev.refPass (some "user-name")]
    ∧ ("userName" : String) ≠ "user-name" :=
  ⟨by decide, by decide⟩

/-- Claim C4 (amended): on an observed-attribute change with differing
values, if the component is connected the callback runs exactly one
reference pass and it is keyed by the changed attribute name (which equals
the assigned property name only when no camel-casing applies), with the
root updated by that filtered pass; if the component is not yet connected,
no reference pass runs and the root is untouched. -/
theorem claim_C4_amended (c : Component) (name : String) (oldV newV : Option String)
    (h : oldV ≠ newV) :
    (c.connected = true →
      Ev.refPass (some name) ∈ (attributeChangedCallback000 c name oldV newV).2
      ∧ (∀ k, Ev.refPass k ∈ (attributeChangedCallback000 c name oldV newV).2 →
          k = some name)
      ∧ (attributeChangedCallback000 c name oldV newV).1.root
        = updateReferences (attributeChangedCallback000 c name oldV newV).1.props
            (some name) c.root)
    ∧ (c.connected = false →
      (∀ k, Ev.refPass k ∉ (attributeChangedCallback000 c name oldV newV).2)
      ∧ (attributeChangedCallback000 c name oldV newV).1.root = c.root) := by
  constructor
  · intro hc
    refine ⟨?_, ?_, ?_⟩ <;>
      by_cases himm : immediateProtoSetter c.protoSetters name <;>
      by_cases hch : chainHasSetter c.protoSetters (camelCaseStr name) <;>
      by_cases hh : c.hasAttrHook <;>
      simp [attributeChangedCallback000, assignProp, h, himm, hch, hh, hc]
  · intro hc
    refine ⟨?_, ?_⟩ <;>
      by_cases himm : immediateProtoSetter c.protoSetters name <;>
      by_cases hch : chainHasSetter c.protoSetters (camelCaseStr name) <;>
      by_cases hh : c.hasAttrHook <;>
      simp [attributeChangedCallback000, assignProp, h, himm, hch, hh, hc]

/-- Witness for claim C4 (amended): a connected component logs the filtered
pass for the changed attribute; a disconnected one logs no pass. -/
theorem claim_C4_witness :
    Ev.refPass (some "email")
      ∈ (attributeChangedCallback000 (Component.mk [] [] false true false [])
          "email" none (some "a")).2
    ∧ Ev.refPass (some "x")
      ∉ (attributeChangedCallback000 (Component.mk [] [] false false false [])
          "x" none (some "a")).2 :=
  ⟨((claim_C4_amended (Component.mk [] [] false true false [])
      "email" none (some "a") (by decide)).1 rfl).1,
    ((claim_C4_amended (Component.mk [] [] false false false [])
      "x" none (some "a") (by decide)).2 rfl).1 (some "x")⟩
